import Mathlib

/-!
Verification of the Android platform layer (project scaffolder, lifecycle
facade and plugin orchestrator) against its natural-language specification.

The development shallowly embeds the two source modules:

* `bin/lib/create.js`   — project scaffolding (`create`, `update`,
  `validatePackageName`, `validateProjectName`, `writeProjectProperties`,
  `copyJsAndLibrary`, `copyScripts`, `copyBuildRules`);
* `bin/templates/cordova/Api.js` — the lifecycle facade
  (`addPlugin`, `removePlugin`).

Filesystem effects are modelled as explicit operation traces over a map from
relative paths to file contents.  JavaScript regular expressions are
translated into executable character-list matchers.  External collaborators
that are not part of the repository sources (the `AndroidManifest` accessor
library, `AndroidProject`, `PluginManager`, the Gradle builders module) are
modelled from the specification, as indicated by their doc comments.
-/

namespace Cordova

/-! ### Character classes used by the JavaScript regular expressions -/

/-- `[a-zA-Z]`: ASCII letter, as used by the package-name grammar. -/
def asciiLetter (c : Char) : Bool := c.isUpper || c.isLower

/-- `\w` / `[a-zA-Z0-9_]`: JavaScript word character (ASCII only). -/
def wordChar (c : Char) : Bool := asciiLetter c || c.isDigit || c = '_'

/-- `[0-9]`. -/
def digitChar (c : Char) : Bool := c.isDigit

/-! ### `validatePackageName` (`bin/lib/create.js:161-176`)

The package grammar is the regex
`^[a-zA-Z][a-zA-Z0-9_]+(\.[a-zA-Z][a-zA-Z0-9_]*)+$`, embedded as a
deterministic scanner. -/

/-- Scanner for the remainder of the package grammar after the mandatory
leading `[a-zA-Z][a-zA-Z0-9_]` pair.  Since the character classes exclude
`'.'`, the regex is deterministic.  States: `0` — inside the first segment
(`[a-zA-Z0-9_]*` may continue, a `'.'` opens the mandatory group part, end
of input rejects because at least one dot-led segment is required); `1` —
immediately after a `'.'`, expecting the `[a-zA-Z]` head of a segment;
`2` — inside a later segment (`[a-zA-Z0-9_]*` may continue, a `'.'` opens
another segment, end of input accepts). -/
def pkgScan : Nat → List Char → Bool
  | 0, [] => false
  | 0, c :: r => if c = '.' then pkgScan 1 r else wordChar c && pkgScan 0 r
  | 1, [] => false
  | 1, c :: r => asciiLetter c && pkgScan 2 r
  | 2, [] => true
  | 2, c :: r => if c = '.' then pkgScan 1 r else wordChar c && pkgScan 2 r
  | _ + 3, _ => false

/-- Matcher for `^[a-zA-Z][a-zA-Z0-9_]+(\.[a-zA-Z][a-zA-Z0-9_]*)+$`: a
letter, a word character, then the scanner from state `0`. -/
def packageGrammar (s : String) : Bool :=
  match s.toList with
  | c :: x :: r => asciiLetter c && wordChar x && pkgScan 0 r
  | _ => false

/-- One position of the scan for `\b[Cc]lass\b`: the list starts with `C` or
`c` followed by the literal `lass`, the previous character (if any) is not a
word character, and the character after the token (if any) is not a word
character. -/
def classHere (prev : Option Char) : List Char → Bool
  | c :: rest =>
    (c = 'C' || c = 'c') && "lass".toList.isPrefixOf rest &&
    (match prev with
     | none => true
     | some p => !wordChar p) &&
    (match (rest.drop 4).head? with
     | none => true
     | some n => !wordChar n)
  | [] => false

/-- Scan of `\b[Cc]lass\b` over the input, tracking the previous character
for the left word boundary. -/
def classScan (prev : Option Char) : List Char → Bool
  | [] => false
  | c :: rest => classHere prev (c :: rest) || classScan (some c) rest

/-- `/\b[Cc]lass\b/.test(package_name)`: the reserved-word test of
`validatePackageName`. -/
def hasClassTok (s : String) : Bool := classScan none s.toList

/-- `validatePackageName` (`bin/lib/create.js:161-176`): rejects names not
matching the Java-package grammar, then rejects names containing the
reserved token `class`/`Class`; resolves otherwise. -/
def validatePackageName (package_name : String) : Except String Unit :=
  if !packageGrammar package_name then
    .error "Error validating package name. Package name must look like: com.company.Name"
  else if hasClassTok package_name then
    .error "Error validating package name. \"class\" is a reserved word"
  else
    .ok ()

/-! #### Structural characterizations of the two package-name patterns

These restate the regexes as explicit decompositions of the input, for use
in the claim statements; the theorems below prove them equivalent to the
matchers. -/

/-- A valid first grammar segment: `[a-zA-Z][a-zA-Z0-9_]+`. -/
def Seg1OK : List Char → Prop
  | [] => False
  | c :: rest => asciiLetter c = true ∧ rest ≠ [] ∧ ∀ x ∈ rest, wordChar x = true

/-- A valid later grammar segment: `[a-zA-Z][a-zA-Z0-9_]*`. -/
def SegOK : List Char → Prop
  | [] => False
  | c :: rest => asciiLetter c = true ∧ ∀ x ∈ rest, wordChar x = true

/-- The concatenation of dot-led segments `(\.seg)*`. -/
def joinDot (segs : List (List Char)) : List Char :=
  (segs.map fun g => '.' :: g).flatten

/-- The package-name grammar as a decomposition: a first segment of length
at least two followed by one or more dot-led segments. -/
def GrammarSpec (s : String) : Prop :=
  ∃ first segs, s.toList = first ++ joinDot segs ∧
    Seg1OK first ∧ segs ≠ [] ∧ ∀ g ∈ segs, SegOK g

/-- Decomposition meaning of scanner state `0`: word characters completing
the first segment, then at least one dot-led segment. -/
def RestFirst (r : List Char) : Prop :=
  ∃ w segs, r = w ++ joinDot segs ∧ (∀ x ∈ w, wordChar x = true) ∧
    segs ≠ [] ∧ ∀ g ∈ segs, SegOK g

/-- Decomposition meaning of scanner state `1`: a segment, then further
dot-led segments. -/
def RestHead (r : List Char) : Prop :=
  ∃ g segs, r = g ++ joinDot segs ∧ SegOK g ∧ ∀ g' ∈ segs, SegOK g'

/-- Decomposition meaning of scanner state `2`: word characters completing
the current segment, then further dot-led segments. -/
def RestSeg (r : List Char) : Prop :=
  ∃ w segs, r = w ++ joinDot segs ∧ (∀ x ∈ w, wordChar x = true) ∧
    ∀ g ∈ segs, SegOK g

/-- The last character of `pre`, falling back to the context character
preceding it. -/
def lastOr (pre : List Char) (prev : Option Char) : Option Char :=
  match pre.getLast? with
  | some x => some x
  | none => prev

/-- Containment of the token `class`/`Class` delimited by word boundaries,
as a decomposition of the input. -/
def ClassTokSpec (s : String) : Prop :=
  ∃ pre c suf, s.toList = pre ++ c :: 'l' :: 'a' :: 's' :: 's' :: suf ∧
    (c = 'C' ∨ c = 'c') ∧
    (∀ p, pre.getLast? = some p → wordChar p = false) ∧
    (∀ n, suf.head? = some n → wordChar n = false)

/-- One position of the scan for the claim's reading of the reserved-word
rule: the word `class` *case-insensitive in every letter*, delimited by word
boundaries.  This follows the specification's words, not the source (the
source regex `[Cc]lass` is case-insensitive only in its first letter). -/
def classHereCI (prev : Option Char) : List Char → Bool
  | c1 :: c2 :: c3 :: c4 :: c5 :: rest =>
    (c1.toLower = 'c' && c2.toLower = 'l' && c3.toLower = 'a' &&
     c4.toLower = 's' && c5.toLower = 's') &&
    (match prev with
     | none => true
     | some p => !wordChar p) &&
    (match rest.head? with
     | none => true
     | some n => !wordChar n)
  | _ => false

/-- Scan for a case-insensitive, word-boundary-delimited `class` token. -/
def classScanCI (prev : Option Char) : List Char → Bool
  | [] => false
  | c :: rest => classHereCI prev (c :: rest) || classScanCI (some c) rest

/-- The claim's reading of the reserved-word rule: the identifier contains
the word `class` as a case-insensitive, word-boundary-delimited token.
Follows the specification's words, for comparison with `hasClassTok`. -/
def specClassTokenCI (s : String) : Bool := classScanCI none s.toList

/-! ### `validateProjectName` (`bin/lib/create.js:183-201`) -/

/-- `/^[0-9]/.test(project_name)`. -/
def startsWithDigit (s : String) : Bool :=
  match s.toList with
  | c :: _ => c.isDigit
  | [] => false

/-- `validateProjectName` (`bin/lib/create.js:183-201`): rejects the empty
name, the reserved name `CordovaActivity`, and names beginning with a
digit; resolves otherwise. -/
def validateProjectName (project_name : String) : Except String Unit :=
  if project_name = "" then
    .error "Error validating project name. Project name cannot be empty"
  else if project_name = "CordovaActivity" then
    .error "Error validating project name. Project name cannot be CordovaActivity"
  else if startsWithDigit project_name then
    .error "Error validating project name. Project name must not begin with a number"
  else
    .ok ()

/-! ### The Android manifest model

Modelled from the spec: the `AndroidManifest` accessor library
(`bin/templates/cordova/lib/AndroidManifest`) is not among the repository
sources; §3/§4.4 of the specification describe it as an in-memory model of
the manifest fields the system touches (package id, min/target SDK version,
debuggable flag, launch-activity name) with pure set/get accessors, SDK
versions compared as integers, and an explicit whole-document write. -/

/-- Modelled from the spec: in-memory representation of the manifest fields
touched by the system (spec §3 `AndroidManifestModel`, §4.4). -/
structure Manifest where
  packageId : String
  minSdkVersion : Nat
  targetSdkVersion : String
  debuggable : Bool
  activityName : String
  deriving DecidableEq

/-- `MIN_SDK_VERSION` (`bin/lib/create.js:29`). -/
def MIN_SDK_VERSION : Nat := 16

/-- The manifest mutation performed by `exports.update`
(`bin/lib/create.js:321-328`): raise `minSdkVersion` to `MIN_SDK_VERSION`
when the declared value is below it, then force `debuggable` to `false`. -/
def updateManifest (m : Manifest) : Manifest :=
  let m1 := if m.minSdkVersion < MIN_SDK_VERSION
            then { m with minSdkVersion := MIN_SDK_VERSION }
            else m
  { m1 with debuggable := false }

/-! ### The lifecycle facade (`bin/templates/cordova/Api.js`)

`addPlugin` and `removePlugin` are embedded as pure functions from the
facade state, the plugin descriptor and the caller's options bag to the
final options value delivered to the plugin manager together with a trace of
the side effects they sequence (implicit clean, delegation to the plugin
manager, build-file regeneration).  The external collaborators are modelled
from the spec as recorded effects:

* `AndroidProject.getProjectFile(root)` — modelled from the spec as a record
  holding the package name read from the project manifest
  (`getPackageName`) and the clean/dirty build state (`isClean`);
* `AndroidStudio.isAndroidStudioProject(root)` — modelled from the spec as
  the boolean layout probe performed at facade construction; the same probe
  repeated inside `addPlugin` returns the same value for an unchanged root;
* `PluginManager.addPlugin/removePlugin` and `self.clean` — modelled from
  the spec as opaque delegated steps, recorded in the trace;
* `builders.getBuilder('gradle').prepBuildFiles()` — modelled from the spec
  as the build-configuration-file regeneration step, recorded in the
  trace. -/

/-- Modelled from the spec: the `AndroidProject` instance returned by
`AndroidProject.getProjectFile(this.root)` — package name from the project
manifest, plus the clean/dirty build state queried by `project.isClean()`. -/
structure AndroidProjectModel where
  packageName : String
  isClean : Bool
  deriving DecidableEq

/-- Facade state relevant to the plugin orchestrator: the Android-Studio
nested-layout flag (`this.android_studio`, set at construction when the
layout probe succeeds) and the project file. -/
structure ApiState where
  android_studio : Bool
  project : AndroidProjectModel
  deriving DecidableEq

/-- A name-to-string-value variable map (a JavaScript object literal). -/
abbrev VarMap := List (String × String)

/-- Property read on a JavaScript object: the value at the first matching
key, if present. -/
def lookupVar : VarMap → String → Option String
  | [], _ => none
  | (k', v) :: rest, k => if k' = k then some v else lookupVar rest k

/-- Property assignment on a JavaScript object: overwrite the existing key
or append a fresh one. -/
def setVar : VarMap → String → String → VarMap
  | [], k, v => [(k, v)]
  | (k', v') :: rest, k, v =>
    if k' = k then (k, v) :: rest else (k', v') :: setVar rest k v

/-- `!x` for `x` a possibly-absent string property: `undefined` and the
empty string are the falsy cases. -/
def jsFalsyStr : Option String → Bool
  | none => true
  | some s => s = ""

/-- The caller's `installOptions` bag for `addPlugin`: the fields the
orchestrator reads or writes (`variables`, `android_studio`); both may be
absent. -/
structure InstallOptions where
  /-- `installOptions.variables` (field name `variables` is reserved in Lean). -/
  vars : Option VarMap := none
  android_studio : Option Bool := none
  deriving DecidableEq

/-- The `installOptions` value delivered to the plugin manager, after
`addPlugin` normalised `variables` (`installOptions.variables || {}`). -/
structure SentInstallOptions where
  /-- `installOptions.variables` (field name `variables` is reserved in Lean). -/
  vars : VarMap
  android_studio : Option Bool
  deriving DecidableEq

/-- The caller's `uninstallOptions` bag for `removePlugin`. -/
structure UninstallOptions where
  usePlatformWww : Option Bool := none
  android_studio : Option Bool := none
  deriving DecidableEq

/-- A plugin descriptor: `plugin.getFrameworks('android')` returns the list
of declared native framework dependencies. -/
structure Plugin where
  frameworks : List String
  deriving DecidableEq

/-- One effect sequenced by the plugin orchestrator, in order. -/
inductive ApiEvent where
  /-- `self.clean(opts)` with `opts.noPrepare` as recorded. -/
  | cleanProject (noPrepare : Bool)
  /-- `PluginManager.get(...).addPlugin(plugin, installOptions)`. -/
  | pmAddPlugin (opts : SentInstallOptions)
  /-- `PluginManager.get(...).removePlugin(plugin, uninstallOptions)`. -/
  | pmRemovePlugin (opts : Option UninstallOptions)
  /-- `builders.getBuilder(this.builder).prepBuildFiles()`. -/
  | prepBuildFiles
  deriving DecidableEq

/-- `Api.prototype.addPlugin` (`bin/templates/cordova/Api.js:214-257`),
success path: normalise the options bag, inject `PACKAGE_NAME` when the
existing value is falsy, mark `android_studio`, clean first when the project
is dirty and not nested-layout, delegate to the plugin manager, and
regenerate build files when the plugin declares frameworks.  Returns the
options value handed to the plugin manager and the effect trace. -/
def addPlugin (st : ApiState) (plugin : Plugin) (installOptions : Option InstallOptions) :
    SentInstallOptions × List ApiEvent :=
  let o := installOptions.getD {}
  let vars := o.vars.getD []
  let vars := if jsFalsyStr (lookupVar vars "PACKAGE_NAME")
              then setVar vars "PACKAGE_NAME" st.project.packageName
              else vars
  let sent : SentInstallOptions :=
    { vars := vars
      android_studio := if st.android_studio then some true else o.android_studio }
  let cleanEvs := if !st.android_studio && !st.project.isClean
                  then [ApiEvent.cleanProject true]
                  else []
  let buildEvs := if plugin.frameworks.length = 0 then [] else [ApiEvent.prepBuildFiles]
  (sent, cleanEvs ++ ApiEvent.pmAddPlugin sent :: buildEvs)

/-- `Api.prototype.removePlugin` (`bin/templates/cordova/Api.js:272-290`),
success path: rewrite the caller's options when `usePlatformWww === true` on
an Android-Studio project, delegate removal, and regenerate build files when
the plugin declares frameworks. -/
def removePlugin (st : ApiState) (plugin : Plugin)
    (uninstallOptions : Option UninstallOptions) :
    Option UninstallOptions × List ApiEvent :=
  let sent : Option UninstallOptions :=
    match uninstallOptions with
    | some u =>
      if u.usePlatformWww = some true ∧ st.android_studio = true
      then some { u with usePlatformWww := some false, android_studio := some true }
      else some u
    | none => none
  (sent,
   ApiEvent.pmRemovePlugin sent ::
     (if plugin.frameworks.length = 0 then [] else [ApiEvent.prepBuildFiles]))

/-! ### The project-properties file (`writeProjectProperties`,
`bin/lib/create.js:96-129`)

The file is a newline-separated text; it is represented by its list of
newline-terminated lines (`full`, without the terminators) together with an
optional final line lacking a terminating newline (`tail`).  The
representation corresponds to the string
`String.join (full.map (· ++ "\n")) ++ tail.getD ""`; lines are assumed (see
`propsWf`) not to contain line-terminator characters.  The JavaScript
multiline regexes of the source are translated into line-based matchers:

* `/^\s*android\.library\.reference\.\d+=(.*)(?:\s|$)/mg`
  (`extractSubProjectPaths`) captures, for each line that after optional
  leading whitespace consists of the literal `android.library.reference.`,
  one or more digits and `=`, the remainder of that line;
* `/^\s*android\.library\.reference\.\d+=.*\n/mg` (the deletion pass)
  removes every such line *that is terminated by a newline*, together with
  the run of whitespace-only lines immediately preceding it (the leading
  `\s*` consumes the newlines of those lines); the final unterminated line
  is never removed because the regex requires the trailing `\n`;
* `/^target=.*/m` (no `g` flag) replaces the first line starting with
  `target=`;
* `/\n$/` holds exactly when the file has no unterminated final line (and
  is nonempty). -/

/-- A text file split into newline-terminated lines plus an optional
unterminated final line. -/
structure PropsFile where
  full : List String
  tail : Option String
  deriving DecidableEq

/-- JavaScript `\s` (whitespace class).  `'\n'` cannot occur inside a line
of a `PropsFile`; `'\r'`, `'\u2028'` and `'\u2029'` are excluded by
`propsWf` because JavaScript treats them as line terminators for `^`/`.`,
which the line-based representation does not model. -/
def isJsSpace (c : Char) : Bool :=
  c = ' ' || c = '\t' || c = '\n' || c = '\x0b' || c = '\x0c' || c = '\r' ||
  c = '\u00a0' || c = '\u1680' || ('\u2000' ≤ c && c ≤ '\u200a') ||
  c = '\u2028' || c = '\u2029' || c = '\u202f' || c = '\u205f' ||
  c = '\u3000' || c = '\ufeff'

/-- Well-formedness of the line representation: no line contains a character
that JavaScript regexes treat as a line terminator. -/
def propsWf (f : PropsFile) : Bool :=
  (f.full.all fun l => l.toList.all fun c =>
    !(c = '\n' || c = '\r' || c = '\u2028' || c = '\u2029')) &&
  (match f.tail with
   | none => true
   | some t => t.toList.all fun c =>
       !(c = '\n' || c = '\r' || c = '\u2028' || c = '\u2029'))

/-- Consume a literal token at the head of the input, if present. -/
def dropLit (lit : String) (cs : List Char) : Option (List Char) :=
  if lit.toList.isPrefixOf cs then some (cs.drop lit.toList.length) else none

/-- Parse `android\.library\.reference\.\d+=(.*)` after leading whitespace
was dropped; returns the captured remainder of the line. -/
def parseRefAux (cs : List Char) : Option String :=
  match dropLit "android.library.reference." cs with
  | none => none
  | some cs1 =>
    if (cs1.takeWhile Char.isDigit).isEmpty then none
    else
      match cs1.dropWhile Char.isDigit with
      | '=' :: rest => some (String.mk rest)
      | _ => none

/-- The library-reference pattern applied to one line: leading `\s*`, the
literal `android.library.reference.`, `\d+`, `=`, and the captured rest of
the line. -/
def parseRefLine (l : String) : Option String :=
  parseRefAux (l.toList.dropWhile isJsSpace)

/-- Whether a line matches the library-reference pattern. -/
def isRefLine (l : String) : Bool := (parseRefLine l).isSome

/-- `ret[m[1]] = 1` on a JavaScript object, key-order accumulator: keep, in
insertion order, the first occurrence of each key not already `seen`. -/
def dedupFirstAux (seen : List String) : List String → List String
  | [] => []
  | s :: rest =>
    if s ∈ seen then dedupFirstAux seen rest
    else s :: dedupFirstAux (s :: seen) rest

/-- `ret[m[1]] = 1` on a JavaScript object: keep the first occurrence of
each key, in insertion order. -/
def dedupFirst (l : List String) : List String := dedupFirstAux [] l

/-- String-to-number on an all-digit string (used only on canonical array
indices). -/
def digitsToNat (s : String) : Nat :=
  s.toList.foldl (fun a c => a * 10 + (c.toNat - 48)) 0

/-- Whether a string is a canonical array index in the JavaScript sense
(`"0"`, or a digit string without a leading zero whose value is below
`2^32 - 1`); such keys are enumerated first, in ascending numeric order, by
`Object.keys`. -/
def isArrayIndex (s : String) : Bool :=
  match s.toList with
  | [] => false
  | ['0'] => true
  | c :: rest => ('1' ≤ c && c ≤ '9') && rest.all Char.isDigit &&
      digitsToNat s < 4294967295

/-- Insert a string into a list sorted by `digitsToNat`. -/
def insertByNat (x : String) : List String → List String
  | [] => [x]
  | y :: ys => if digitsToNat x ≤ digitsToNat y then x :: y :: ys
               else y :: insertByNat x ys

/-- Insertion sort by `digitsToNat`. -/
def sortByNat : List String → List String
  | [] => []
  | x :: xs => insertByNat x (sortByNat xs)

/-- `Object.keys` enumeration order over keys inserted in the given order:
canonical array indices first in ascending numeric order, then the other
keys in insertion order. -/
def objectKeys (l : List String) : List String :=
  sortByNat (l.filter isArrayIndex) ++ l.filter (fun s => !isArrayIndex s)

/-- `extractSubProjectPaths` (`bin/lib/create.js:96-104`): capture the paths
of all library-reference lines, dropping duplicates via object-key
insertion, and enumerate them in `Object.keys` order. -/
def extractSubProjectPaths (f : PropsFile) : List String :=
  objectKeys (dedupFirst ((f.full ++ f.tail.toList).filterMap parseRefLine))

/-- `[\\\/]`: path separator characters. -/
def isSepChar (c : Char) : Bool := c = '/' || c = '\\'

/-- `/[\\\/]cordova-android[\\\/]framework$/m.exec(p)` for a terminator-free
`p`: `p` ends with a separator, `cordova-android`, a separator and
`framework`. -/
def endsCordovaAndroidFramework (p : String) : Bool :=
  ["/cordova-android/framework", "/cordova-android\\framework",
   "\\cordova-android/framework", "\\cordova-android\\framework"].any
    fun suf => suf.toList.isSuffixOf p.toList

/-- `/^(\.\.[\\\/])+framework$/m.exec(p)` for a terminator-free `p`: one or
more `..`-separator groups followed by `framework`. -/
def dotDotFramework : List Char → Bool
  | '.' :: '.' :: c :: rest =>
    isSepChar c && (rest = "framework".toList || dotDotFramework rest)
  | _ => false

/-- The stale-shared-library filter of `writeProjectProperties`
(`bin/lib/create.js:114-119`). -/
def staleFrameworkRef (p : String) : Bool :=
  p = "CordovaLib" || endsCordovaAndroidFramework p ||
    dotDotFramework p.toList

/-- `/^target=.*/ ` applied to one line. -/
def isTargetLine (l : String) : Bool := "target=".toList.isPrefixOf l.toList

/-- Replace the first `target=` line among the terminated lines, if any. -/
def replaceFirstTarget (t : String) : List String → Option (List String)
  | [] => none
  | l :: rest =>
    if isTargetLine l then some (("target=" ++ t) :: rest)
    else (replaceFirstTarget t rest).map (l :: ·)

/-- `data.replace(/^target=.*/m, 'target=' + target_api)`
(`bin/lib/create.js:112`): rewrite the first matching line (the regex has no
`g` flag), which may be the unterminated final line. -/
def replaceTarget (t : String) (f : PropsFile) : PropsFile :=
  match replaceFirstTarget t f.full with
  | some full' => { f with full := full' }
  | none =>
    match f.tail with
    | some tl =>
      if isTargetLine tl then { f with tail := some ("target=" ++ t) } else f
    | none => f

/-- Whether a line consists only of `\s` characters (such a line is consumed
by the leading `\s*` of the deletion regex when a terminated reference line
follows it directly). -/
def isWsOnly (l : String) : Bool := l.toList.all isJsSpace

/-- Whether the list starts with a (possibly empty) run of whitespace-only
lines followed by a terminated reference line. -/
def refFollows : List String → Bool
  | [] => false
  | l :: rest => isRefLine l || (isWsOnly l && refFollows rest)

/-- The deletion pass
`data.replace(/^\s*android\.library\.reference\.\d+=.*\n/mg, '')`
(`bin/lib/create.js:121`) on the terminated lines: drop every reference
line, together with the whitespace-only lines directly preceding one.  The
unterminated final line is outside this list and is never removed. -/
def stripRefLines : List String → List String
  | [] => []
  | l :: rest =>
    if isRefLine l then stripRefLines rest
    else if isWsOnly l && refFollows rest then stripRefLines rest
    else l :: stripRefLines rest

/-- `if (!/\n$/.exec(data)) data += '\n'` (`bin/lib/create.js:122-124`):
terminate the final line when it is unterminated; an empty file becomes a
single empty line. -/
def ensureNL (f : PropsFile) : PropsFile :=
  match f.tail with
  | some t => { full := f.full ++ [t], tail := none }
  | none => if f.full.isEmpty then { full := [""], tail := none } else f

/-- The decimal digit character for `d < 10`. -/
def digitOf (d : Nat) : Char :=
  ['0', '1', '2', '3', '4', '5', '6', '7', '8', '9'].getD d '0'

/-- Decimal rendering accumulator (most significant digit first), with
structural fuel; `fuel ≥ n` suffices to exhaust `n`. -/
def natDigits : Nat → Nat → List Char → List Char
  | 0, _, acc => acc
  | fuel + 1, n, acc =>
    if n = 0 then acc else natDigits fuel (n / 10) (digitOf (n % 10) :: acc)

/-- JavaScript number-to-string for a natural number (decimal). -/
def natToStr (n : Nat) : String :=
  if n = 0 then "0" else String.mk (natDigits n n [])

/-- `'android.library.reference.' + (i+1) + '=' + subProjects[i]`. -/
def renderRef (n : Nat) (p : String) : String :=
  "android.library.reference." ++ natToStr n ++ "=" ++ p

/-- The reference lines appended by `writeProjectProperties`, numbered from
`n` upward. -/
def renderRefsFrom (n : Nat) : List String → List String
  | [] => []
  | p :: ps => renderRef n p :: renderRefsFrom (n + 1) ps

/-- `writeProjectProperties` (`bin/lib/create.js:106-129`): read the
existing `project.properties` when present (else the template), rewrite the
`target=` line, collect the referenced sub-projects, drop stale shared-
library references, prepend `CordovaLib`, delete the old reference lines,
terminate the file, and append the renumbered reference list. -/
def writeProjectProperties (existing : Option PropsFile) (tmpl : PropsFile)
    (target_api : String) : PropsFile :=
  let srcF := existing.getD tmpl
  let d1 := replaceTarget target_api srcF
  let subProjects := (extractSubProjectPaths d1).filter fun p => !staleFrameworkRef p
  let subProjects := "CordovaLib" :: subProjects
  let d2 := ensureNL { full := stripRefLines d1.full, tail := d1.tail }
  { full := d2.full ++ renderRefsFrom 1 subProjects, tail := none }

/-- The lines of the file, in order, the unterminated one included. -/
def PropsFile.lines (f : PropsFile) : List String := f.full ++ f.tail.toList

/-- The library-reference lines of the file, in order. -/
def refLines (f : PropsFile) : List String := f.lines.filter isRefLine

/-- The captured paths of the library-reference lines of the file. -/
def refPaths (f : PropsFile) : List String := f.lines.filterMap parseRefLine

/-- The property claimed of the properties file after
`writeProjectProperties`: its library-reference lines are exactly
`android.library.reference.N=<path>` numbered consecutively from 1, the
first referenced path is `CordovaLib`, the remaining ones are free of stale
shared-framework references, and no path is referenced twice. -/
def RefsWellFormed (f : PropsFile) : Prop :=
  refLines f = renderRefsFrom 1 (refPaths f) ∧
  (refPaths f).head? = some "CordovaLib" ∧
  (refPaths f).Nodup ∧
  ∀ p ∈ (refPaths f).tail, staleFrameworkRef p = false

/-! ### Filesystem-effect traces for `create` and `update`
(`bin/lib/create.js`)

Filesystem mutations are recorded as a list of operations on paths relative
to the project directory; the on-disk state is a map from relative path to
file content.  Template-store contents (the `bin/templates` tree, the
`framework` tree, `node_modules`, …) are data of the repository, not code,
and enter as opaque parameters in a `Tmpl` record. -/

/-- One filesystem mutation inside the project directory. -/
inductive FsOp where
  /-- Create or overwrite the file at `p` with `content`
  (`shell.cp` of a single file, `fs.writeFileSync`, `manifest.write`). -/
  | write (p : String) (content : String)
  /-- Recursive directory copy into `p` (`shell.cp -r`): each path
  `p ++ "/" ++ rel` with `tree rel = some c` is written with content `c`;
  other existing files under `p` are kept. -/
  | copyTree (p : String) (tree : String → Option String)
  /-- Remove the file or directory tree at `p`
  (`shell.rm -rf`, `fs.unlinkSync`). -/
  | removePath (p : String)
  /-- `shell.mkdir -p`. -/
  | mkdir (p : String)
  /-- `fs.symlinkSync` of the shared framework directory at `p`; the link
  target lies outside the project tree, so no project file content
  changes. -/
  | symlink (p : String)
  /-- `shell.sed('-i', pat, repl, p)`: rewrite the content of `p` in
  place. -/
  | sedInPlace (p : String) (f : String → String)
  /-- Modelled from the spec:
  `builders.getBuilder('gradle').prepBuildFiles()` regenerates the Gradle
  build-configuration files of the project (spec §4.3, §9); `upd` gives the
  regenerated contents. -/
  | prepBuildFilesOp (upd : String → Option String)

/-- The Gradle build-configuration files regenerated by `prepBuildFiles`.
Modelled from the spec: build-file regeneration touches only the build
configuration at the project and sub-project roots. -/
def buildConfigPaths : List String :=
  ["build.gradle", "app/build.gradle", "CordovaLib/build.gradle"]

/-- Apply one filesystem operation to the content map. -/
def FsOp.apply (files : String → Option String) : FsOp → (String → Option String)
  | .write p c => fun q => if q = p then some c else files q
  | .copyTree p tree => fun q =>
    if (p ++ "/").toList.isPrefixOf q.toList then
      match tree (q.drop (p ++ "/").length) with
      | some c => some c
      | none => files q
    else files q
  | .removePath p => fun q =>
    if q = p || (p ++ "/").toList.isPrefixOf q.toList then none else files q
  | .mkdir _ => files
  | .symlink _ => files
  | .sedInPlace p g => fun q => if q = p then (files p).map g else files q
  | .prepBuildFilesOp upd => fun q =>
    if q ∈ buildConfigPaths then upd q else files q

/-- Apply a trace of filesystem operations in order. -/
def applyOps (files : String → Option String) (ops : List FsOp) :
    String → Option String :=
  ops.foldl FsOp.apply files

/-- Opaque template-store and generated contents used by the scaffolder. -/
structure Tmpl where
  cordovaJs : String := ""
  cordovaJsSrc : String → Option String := fun _ => none
  projectAssets : String → Option String := fun _ => none
  projectRes : String → Option String := fun _ => none
  gitignore : String := ""
  activityJava : String := ""
  frameworkManifest : String := ""
  frameworkProps : String := ""
  frameworkBuildGradle : String := ""
  frameworkCordovaGradle : String := ""
  frameworkSrc : String → Option String := fun _ => none
  frameworkGradlew : String := ""
  frameworkGradle : String → Option String := fun _ => none
  scriptsTree : String → Option String := fun _ => none
  nodeModules : String → Option String := fun _ => none
  checkReqs : String := ""
  checkReqsBat : String := ""
  checkReqsJs : String := ""
  sdkVersionBin : String := ""
  sdkVersionJs : String := ""
  projectBuildGradle : String := ""
  templateManifest : Manifest :=
    { packageId := "", minSdkVersion := 0, targetSdkVersion := ""
      debuggable := true, activityName := "" }
  templateProps : PropsFile := { full := [], tail := none }
  gradleGen : String → Option String := fun _ => none

/-- Modelled from the spec: serialization of the manifest model on
`manifest.write` — the whole document is re-rendered from the field values
(spec §4.4); the XML syntax is abstracted into a canonical field listing,
which the claims never inspect. -/
def serializeManifest (m : Manifest) : String :=
  "package=" ++ m.packageId ++
  ";minSdkVersion=" ++ toString m.minSdkVersion ++
  ";targetSdkVersion=" ++ m.targetSdkVersion ++
  ";debuggable=" ++ (if m.debuggable then "true" else "false") ++
  ";activity=" ++ m.activityName

/-- Render a `PropsFile` back to its file content. -/
def renderProps (f : PropsFile) : String :=
  String.join (f.full.map (· ++ "\n")) ++ (f.tail.getD "")

/-- `copyJsAndLibrary` (`bin/lib/create.js:45-94`): refresh `cordova.js`,
`platform_www` and the `CordovaLib` sub-project.  `wasSymlink` records
whether `fs.unlinkSync(CordovaLib)` succeeded (the previous `CordovaLib` was
a symbolic link). -/
def copyJsAndLibraryOps (t : Tmpl) (shared wasSymlink : Bool) : List FsOp :=
  [ .write "assets/www/cordova.js" t.cordovaJs,
    .mkdir "platform_www",
    .write "platform_www/cordova.js" t.cordovaJs,
    .copyTree "platform_www/cordova-js-src" t.cordovaJsSrc,
    .removePath "libs/cordova-*.jar" ]
  ++ (if wasSymlink then [FsOp.removePath "CordovaLib"] else [])
  ++ (if shared then [FsOp.removePath "CordovaLib"]
      else if !wasSymlink then [FsOp.removePath "CordovaLib/src"] else [])
  ++ (if shared then [FsOp.symlink "CordovaLib"]
      else
        [ .mkdir "CordovaLib",
          .write "CordovaLib/AndroidManifest.xml" t.frameworkManifest,
          .write "CordovaLib/project.properties" t.frameworkProps,
          .write "CordovaLib/build.gradle" t.frameworkBuildGradle,
          .write "CordovaLib/cordova.gradle" t.frameworkCordovaGradle,
          .copyTree "CordovaLib/src" t.frameworkSrc,
          .write "CordovaLib/gradlew" t.frameworkGradlew,
          .copyTree "CordovaLib/gradle" t.frameworkGradle ])

/-- `copyScripts` (`bin/lib/create.js:142-154`): replace the in-project
`cordova` scripts directory.  `shell.cp(check_reqs*)` copies the
`check_reqs` and `check_reqs.bat` launchers. -/
def copyScriptsOps (t : Tmpl) : List FsOp :=
  [ .removePath "cordova",
    .copyTree "cordova" t.scriptsTree,
    .copyTree "cordova/node_modules" t.nodeModules,
    .write "cordova/check_reqs" t.checkReqs,
    .write "cordova/check_reqs.bat" t.checkReqsBat,
    .write "cordova/lib/check_reqs.js" t.checkReqsJs,
    .write "cordova/android_sdk_version" t.sdkVersionBin,
    .write "cordova/lib/android_sdk_version.js" t.sdkVersionJs ]

/-- `copyBuildRules` (`bin/lib/create.js:136-140`). -/
def copyBuildRulesOps (t : Tmpl) : List FsOp :=
  [ .write "build.gradle" t.projectBuildGradle ]

/-- `config.name().replace(/[^\w.]/g, '_')`. -/
def sanitizeName (s : String) : String :=
  String.mk (s.toList.map fun c => if wordChar c || c = '.' then c else '_')

/-- JavaScript `x || d` for a string `x`: the empty string falls back to the
default. -/
def jsOrS (s d : String) : String := if s = "" then d else s

/-- `package_name.replace(/\./g, path.sep)` (POSIX separator). -/
def pkgToPath (pkg : String) : String :=
  String.mk (pkg.toList.map fun c => if c = '.' then '/' else c)

/-- `target_api.split('-')[1]` (e.g. `"android-25" → "25"`). -/
def secondDashField (s : String) : String := (s.splitOn "-").getD 1 ""

/-- `shell.sed` substitution body: replace the first occurrence of the
literal pattern. -/
def replaceFirstSub (pat repl : List Char) : List Char → List Char
  | [] => []
  | c :: rest =>
    if pat.isPrefixOf (c :: rest) then repl ++ (c :: rest).drop pat.length
    else c :: replaceFirstSub pat repl rest

/-- `shell.sed('-i', pat, repl, file)` as a content transformation. -/
def sedSub (pat repl : String) (content : String) : String :=
  String.mk (replaceFirstSub pat.toList repl.toList content.toList)

/-- The manifest written by `create` (`bin/lib/create.js:287-293`): the
template manifest with the package id, the target SDK version parsed from
`target_api`, and the activity name set. -/
def createManifest (t : Tmpl) (pkg target_api activity : String) : Manifest :=
  { t.templateManifest with
    packageId := pkg
    targetSdkVersion := secondDashField target_api
    activityName := activity }

/-- The scaffolding trace of `exports.create`
(`bin/lib/create.js:254-300`), in source order. -/
def createOps (t : Tmpl) (pkg project_name activity target_api : String)
    (link wasSymlink : Bool) : List FsOp :=
  let activityPath := "app/src/main/java/" ++ pkgToPath pkg ++ "/" ++ activity ++ ".java"
  [ .copyTree "assets" t.projectAssets,
    .copyTree "res" t.projectRes,
    .write ".gitignore" t.gitignore,
    .mkdir "libs" ]
  ++ copyJsAndLibraryOps t link wasSymlink
  ++ [ .mkdir "app/src/main/java",
       .mkdir "app/src/main/assets",
       .mkdir "app/src/main/res",
       .mkdir ("app/src/main/java/" ++ pkgToPath pkg),
       .write activityPath t.activityJava,
       .sedInPlace activityPath (sedSub "__ACTIVITY__" activity),
       .sedInPlace "res/values/strings.xml" (sedSub "__NAME__" project_name),
       .sedInPlace activityPath (sedSub "__ID__" pkg),
       .write "app/src/main/AndroidManifest.xml"
         (serializeManifest (createManifest t pkg target_api activity)) ]
  ++ copyScriptsOps t
  ++ copyBuildRulesOps t
  ++ [ .write "project.properties"
         (renderProps (writeProjectProperties none t.templateProps target_api)),
       .prepBuildFilesOp t.gradleGen ]

/-- The configuration values read from the `ConfigParser` instance
(`config.packageName()`, `config.name()`, `config.android_activityName()`);
the empty string stands for an absent value (JavaScript falsy). -/
structure Config where
  packageName : String := ""
  name : String := ""
  android_activityName : String := ""
  deriving DecidableEq

/-- The options bag of `exports.create`. -/
structure CreateOptions where
  activityName : String := ""
  link : Bool := false
  deriving DecidableEq

/-- `exports.create` (`bin/lib/create.js:221-303`): reject when the
destination exists; derive package, project and activity names; validate the
package name; then scaffold.  The call
`validateProjectName(project_name)` at `bin/lib/create.js:242` does not
return its promise to the chain, so a rejected project-name validation is
dropped and scaffolding proceeds regardless — the embedding reproduces
this.  `destExists` is the `fs.existsSync(project_path)` probe and
`wasSymlink` the `CordovaLib` unlink outcome; `project_path` stands for the
already-relativised destination. -/
def create (destExists : Bool) (cfg : Config) (options : CreateOptions)
    (t : Tmpl) (target_api : String) (project_path : String)
    (wasSymlink : Bool) : Except String String × List FsOp :=
  if destExists then
    (.error "Project already exists! Delete and recreate", [])
  else
    let package_name := jsOrS cfg.packageName "my.cordova.project"
    let project_name := if cfg.name = "" then "CordovaExample" else sanitizeName cfg.name
    let safe_activity_name :=
      jsOrS cfg.android_activityName (jsOrS options.activityName "MainActivity")
    match validatePackageName package_name with
    | .error e => (.error e, [])
    | .ok () =>
      (.ok project_path,
       createOps t package_name project_name safe_activity_name target_api
         options.link wasSymlink)

/-- The project state seen by `update`: the root manifest (as parsed by the
manifest editor) and the on-disk content map. -/
structure ProjectState where
  manifest : Manifest
  files : String → Option String

/-- The trace of `exports.update` (`bin/lib/create.js:315-340`), in source
order: persist the mutated manifest, refresh `cordova.js`/`CordovaLib`, the
scripts directory and the build rules, rewrite `project.properties`, and
regenerate build files. -/
def updateOps (t : Tmpl) (m' : Manifest) (link wasSymlink : Bool)
    (existingProps : Option PropsFile) (target_api : String) : List FsOp :=
  [ FsOp.write "AndroidManifest.xml" (serializeManifest m') ]
  ++ copyJsAndLibraryOps t link wasSymlink
  ++ copyScriptsOps t
  ++ copyBuildRulesOps t
  ++ [ FsOp.write "project.properties"
         (renderProps (writeProjectProperties existingProps t.templateProps target_api)),
       FsOp.prepBuildFilesOp t.gradleGen ]

/-- `exports.update` (`bin/lib/create.js:315-340`): apply the manifest
mutation (`updateManifest`) and the refresh trace to the project state.
`existingProps` is the parse of the on-disk `project.properties`, when
present. -/
def updateProject (t : Tmpl) (link wasSymlink : Bool)
    (existingProps : Option PropsFile) (target_api : String)
    (st : ProjectState) : ProjectState × List FsOp :=
  let m' := updateManifest st.manifest
  let ops := updateOps t m' link wasSymlink existingProps target_api
  ({ manifest := m', files := applyOps st.files ops }, ops)

/-- Whether a path lies inside the user Java source areas: the legacy
`src/` directory or the Android-Studio `app/src/main/java/` directory
(spec §3 `ProjectLocations`, `Api.js:75` and `Api.js:89`). -/
def underJavaSrc (q : String) : Bool :=
  "src/".toList.isPrefixOf q.toList ||
  "app/src/main/java/".toList.isPrefixOf q.toList

/-- An operation never changes the content of any path inside the user Java
source areas. -/
def OpJavaSafe (op : FsOp) : Prop :=
  ∀ f q, underJavaSrc q = true → op.apply f q = f q

/-- Whether the path (as a directory root) starts with a character that
rules out any overlap with the user Java source areas (`src/…` starts with
`'s'`, `app/src/main/java/…` with `'a'`). -/
def headNotJava (p : String) : Bool :=
  match (p ++ "/").toList.head? with
  | some c => !(c = 's' || c = 'a')
  | none => false

/-- Syntactic check that an operation cannot touch the user Java source
areas: single-file operations target a path outside them, and subtree
operations are rooted at a path whose first character already rules out
overlap. -/
def opSafeCheck : FsOp → Bool
  | .write p _ => !underJavaSrc p
  | .copyTree p _ => headNotJava p
  | .removePath p => !underJavaSrc p && headNotJava p
  | .mkdir _ => true
  | .symlink _ => true
  | .sedInPlace p _ => !underJavaSrc p
  | .prepBuildFilesOp _ => true

/-! ## Lemmas -/

/-- Property update on a JavaScript object makes the value readable back. -/
theorem lookupVar_setVar (m : VarMap) (k v : String) :
    lookupVar (setVar m k v) k = some v := by
  induction m with
  | nil => simp [setVar, lookupVar]
  | cons h t ih =>
    obtain ⟨k', v'⟩ := h
    by_cases hk : k' = k
    · simp [setVar, hk, lookupVar]
    · simp [setVar, hk, lookupVar, ih]

/-- `joinDot` is empty exactly for the empty segment list. -/
theorem joinDot_eq_nil {segs : List (List Char)} :
    joinDot segs = [] ↔ segs = [] := by
  cases segs <;> simp [joinDot]

/-- `joinDot` on a cons unfolds to a dot, the segment, and the rest. -/
theorem joinDot_cons (g : List Char) (segs : List (List Char)) :
    joinDot (g :: segs) = '.' :: (g ++ joinDot segs) := by
  simp [joinDot]

/-- `wordChar '.'` is false. -/
theorem wordChar_dot : wordChar '.' = false := by decide

/-- The three scanner states recognise exactly their decompositions. -/
theorem pkgScan_iff : ∀ r : List Char,
    (pkgScan 0 r = true ↔ RestFirst r) ∧
    (pkgScan 1 r = true ↔ RestHead r) ∧
    (pkgScan 2 r = true ↔ RestSeg r) := by
  intro r
  induction r with
  | nil =>
    refine ⟨?_, ?_, ?_⟩
    · simp only [pkgScan, RestFirst]
      constructor
      · intro h; cases h
      · rintro ⟨w, segs, hr, -, hne, -⟩
        rcases List.append_eq_nil.mp hr.symm with ⟨-, hj⟩
        exact absurd (joinDot_eq_nil.mp hj) hne
    · simp only [pkgScan, RestHead]
      constructor
      · intro h; cases h
      · rintro ⟨g, segs, hr, hg, -⟩
        rcases List.append_eq_nil.mp hr.symm with ⟨hgnil, -⟩
        rw [hgnil] at hg
        exact hg.elim
    · constructor
      · intro _
        exact ⟨[], [], by simp [joinDot], by simp, by simp⟩
      · intro _
        rfl
  | cons c rest ih =>
    obtain ⟨ih0, ih1, ih2⟩ := ih
    have head1 : pkgScan 1 (c :: rest) = true ↔ RestHead (c :: rest) := by
      rw [show pkgScan 1 (c :: rest) = (asciiLetter c && pkgScan 2 rest) from rfl]
      rw [Bool.and_eq_true, ih2]
      constructor
      · rintro ⟨hl, w, segs, hr, hw, hsegs⟩
        exact ⟨c :: w, segs, by simp [hr], ⟨hl, hw⟩, hsegs⟩
      · rintro ⟨g, segs, hr, hg, hsegs⟩
        cases g with
        | nil => exact hg.elim
        | cons x w =>
          obtain ⟨hx, hrest⟩ := List.cons_eq_cons.mp hr
          obtain ⟨hl, hw⟩ := hg
          subst hx
          exact ⟨hl, w, segs, hrest, hw, hsegs⟩
    have step1_first : RestHead rest ↔ RestFirst ('.' :: rest) := by
      constructor
      · rintro ⟨g, segs, hr, hg, hsegs⟩
        refine ⟨[], g :: segs, ?_, by simp, by simp, ?_⟩
        · simp [joinDot_cons, hr]
        · intro g' hg'
          rcases List.mem_cons.mp hg' with h | h
          · exact h ▸ hg
          · exact hsegs g' h
      · rintro ⟨w, segs, hr, hw, hne, hsegs⟩
        cases w with
        | cons x w' =>
          obtain ⟨hx, -⟩ := List.cons_eq_cons.mp hr
          have := hw x (by simp)
          rw [← hx, wordChar_dot] at this
          cases this
        | nil =>
          cases segs with
          | nil => simp at hne
          | cons g segs' =>
            rw [List.nil_append, joinDot_cons] at hr
            obtain ⟨-, hrest⟩ := List.cons_eq_cons.mp hr
            exact ⟨g, segs', hrest, hsegs g (by simp),
              fun g' h => hsegs g' (by simp [h])⟩
    have step1_seg : RestHead rest ↔ RestSeg ('.' :: rest) := by
      constructor
      · rintro ⟨g, segs, hr, hg, hsegs⟩
        refine ⟨[], g :: segs, by simp [joinDot_cons, hr], by simp, ?_⟩
        intro g' hg'
        rcases List.mem_cons.mp hg' with h | h
        · exact h ▸ hg
        · exact hsegs g' h
      · rintro ⟨w, segs, hr, hw, hsegs⟩
        cases w with
        | cons x w' =>
          obtain ⟨hx, -⟩ := List.cons_eq_cons.mp hr
          have := hw x (by simp)
          rw [← hx, wordChar_dot] at this
          cases this
        | nil =>
          cases segs with
          | nil => simp [joinDot] at hr
          | cons g segs' =>
            rw [List.nil_append, joinDot_cons] at hr
            obtain ⟨-, hrest⟩ := List.cons_eq_cons.mp hr
            exact ⟨g, segs', hrest, hsegs g (by simp),
              fun g' h => hsegs g' (by simp [h])⟩
    refine ⟨?_, head1, ?_⟩
    · by_cases hc : c = '.'
      · subst hc
        rw [show pkgScan 0 ('.' :: rest) = pkgScan 1 rest from rfl, ih1]
        exact step1_first
      · rw [show pkgScan 0 (c :: rest)
              = (if c = '.' then pkgScan 1 rest else wordChar c && pkgScan 0 rest)
            from rfl, if_neg hc, Bool.and_eq_true, ih0]
        constructor
        · rintro ⟨hwc, w, segs, hr, hw, hne, hsegs⟩
          refine ⟨c :: w, segs, by simp [hr], ?_, hne, hsegs⟩
          intro x hx
          rcases List.mem_cons.mp hx with h | h
          · exact h ▸ hwc
          · exact hw x h
        · rintro ⟨w, segs, hr, hw, hne, hsegs⟩
          cases w with
          | nil =>
            rw [List.nil_append] at hr
            cases segs with
            | nil => simp at hne
            | cons g segs' =>
              rw [joinDot_cons] at hr
              exact absurd (List.cons_eq_cons.mp hr).1 hc
          | cons x w' =>
            obtain ⟨hx, hrest⟩ := List.cons_eq_cons.mp hr
            subst hx
            exact ⟨hw c (by simp), w', segs, hrest,
              fun y hy => hw y (by simp [hy]), hne, hsegs⟩
    · by_cases hc : c = '.'
      · subst hc
        rw [show pkgScan 2 ('.' :: rest) = pkgScan 1 rest from rfl, ih1]
        exact step1_seg
      · rw [show pkgScan 2 (c :: rest)
              = (if c = '.' then pkgScan 1 rest else wordChar c && pkgScan 2 rest)
            from rfl, if_neg hc, Bool.and_eq_true, ih2]
        constructor
        · rintro ⟨hwc, w, segs, hr, hw, hsegs⟩
          refine ⟨c :: w, segs, by simp [hr], ?_, hsegs⟩
          intro x hx
          rcases List.mem_cons.mp hx with h | h
          · exact h ▸ hwc
          · exact hw x h
        · rintro ⟨w, segs, hr, hw, hsegs⟩
          cases w with
          | nil =>
            rw [List.nil_append] at hr
            cases segs with
            | nil => simp [joinDot] at hr
            | cons g segs' =>
              rw [joinDot_cons] at hr
              exact absurd (List.cons_eq_cons.mp hr).1 hc
          | cons x w' =>
            obtain ⟨hx, hrest⟩ := List.cons_eq_cons.mp hr
            subst hx
            exact ⟨hw c (by simp), w', segs, hrest,
              fun y hy => hw y (by simp [hy]), hsegs⟩

/-- The package-grammar matcher recognises exactly the decompositions of
`GrammarSpec`. -/
theorem packageGrammar_iff (s : String) :
    packageGrammar s = true ↔ GrammarSpec s := by
  unfold packageGrammar GrammarSpec
  cases hs : s.toList with
  | nil =>
    constructor
    · intro h; cases h
    · rintro ⟨first, segs, hr, h1, -, -⟩
      rcases List.append_eq_nil.mp hr.symm with ⟨hf, -⟩
      rw [hf] at h1
      exact h1.elim
  | cons c rest =>
    cases rest with
    | nil =>
      constructor
      · intro h; cases h
      · rintro ⟨first, segs, hr, h1, hne, -⟩
        cases first with
        | nil => exact h1.elim
        | cons c0 rest1 =>
          obtain ⟨-, hne1, -⟩ := h1
          cases rest1 with
          | nil => exact absurd rfl hne1
          | cons y w =>
            obtain ⟨-, hr2⟩ := List.cons_eq_cons.mp hr
            simp at hr2
    | cons x r =>
      rw [show (match c :: x :: r with
            | c :: x :: r => asciiLetter c && wordChar x && pkgScan 0 r
            | _ => false) = (asciiLetter c && wordChar x && pkgScan 0 r)
          from rfl]
      rw [Bool.and_eq_true, Bool.and_eq_true, (pkgScan_iff r).1]
      constructor
      · rintro ⟨⟨hlc, hwx⟩, w, segs, hr, hw, hne, hsegs⟩
        refine ⟨c :: x :: w, segs, by simp [hr], ?_, hne, hsegs⟩
        refine ⟨hlc, by simp, ?_⟩
        intro y hy
        rcases List.mem_cons.mp hy with h | h
        · exact h ▸ hwx
        · exact hw y h
      · rintro ⟨first, segs, hr, h1, hne, hsegs⟩
        cases first with
        | nil => exact h1.elim
        | cons c0 rest1 =>
          obtain ⟨hc0, hr2⟩ := List.cons_eq_cons.mp hr
          obtain ⟨hl, hne1, hword⟩ := h1
          cases rest1 with
          | nil => exact absurd rfl hne1
          | cons x0 w =>
            obtain ⟨hx0, hr3⟩ := List.cons_eq_cons.mp hr2
            subst hc0; subst hx0
            exact ⟨⟨hl, hword x (by simp)⟩, w, segs, hr3,
              fun y hy => hword y (by simp [hy]), hne, hsegs⟩

/-- `classHere` decodes to the token with its boundary conditions. -/
theorem classHere_iff (prev : Option Char) (l : List Char) :
    classHere prev l = true ↔
      ∃ c suf, l = c :: 'l' :: 'a' :: 's' :: 's' :: suf ∧ (c = 'C' ∨ c = 'c') ∧
        (∀ p, prev = some p → wordChar p = false) ∧
        (∀ n, suf.head? = some n → wordChar n = false) := by
  cases l with
  | nil =>
    simp only [classHere]
    constructor
    · intro h; cases h
    · rintro ⟨c, suf, h, -⟩; cases h
  | cons c rest =>
    rw [show classHere prev (c :: rest)
          = ((c = 'C' || c = 'c') && "lass".toList.isPrefixOf rest &&
             (match prev with
              | none => true
              | some p => !wordChar p) &&
             (match (rest.drop 4).head? with
              | none => true
              | some n => !wordChar n)) from rfl]
    simp only [Bool.and_eq_true]
    constructor
    · rintro ⟨⟨⟨hc, hpre⟩, hprev⟩, hnext⟩
      obtain ⟨t, ht⟩ := List.isPrefixOf_iff_prefix.mp hpre
      have hrest : rest = 'l' :: 'a' :: 's' :: 's' :: t := by
        rw [← ht]; rfl
      refine ⟨c, t, by rw [hrest], ?_, ?_, ?_⟩
      · rcases Bool.or_eq_true_iff.mp hc with h | h
        · exact Or.inl (by simpa using h)
        · exact Or.inr (by simpa using h)
      · intro p hp
        rw [hp] at hprev
        simpa using hprev
      · intro n hn
        rw [hrest] at hnext
        simp only [List.drop_succ_cons, List.drop_zero] at hnext
        rw [hn] at hnext
        simpa using hnext
    · rintro ⟨c', suf, hl, hc, hprev, hnext⟩
      obtain ⟨hcc, hrest⟩ := List.cons_eq_cons.mp hl
      subst hcc
      refine ⟨⟨⟨?_, ?_⟩, ?_⟩, ?_⟩
      · rcases hc with h | h <;> simp [h]
      · rw [hrest]
        exact List.isPrefixOf_iff_prefix.mpr ⟨suf, rfl⟩
      · cases prev with
        | none => rfl
        | some p => simpa using hprev p rfl
      · rw [hrest]
        simp only [List.drop_succ_cons, List.drop_zero]
        cases hsuf : suf.head? with
        | none => rfl
        | some n => simpa using hnext n hsuf

/-- `lastOr` over a cons defers to the tail with the head as new context. -/
theorem lastOr_cons (x : Char) (pre : List Char) (prev : Option Char) :
    lastOr (x :: pre) prev = lastOr pre (some x) := by
  cases pre with
  | nil => rfl
  | cons y l =>
    unfold lastOr
    rw [List.getLast?_cons_cons]
    cases hg : (y :: l).getLast? with
    | some z => rfl
    | none => simp at hg

/-- The scan finds the token exactly when a boundary-delimited occurrence
exists, relative to the left-context character. -/
theorem classScan_iff : ∀ (l : List Char) (prev : Option Char),
    classScan prev l = true ↔
      ∃ pre c suf, l = pre ++ c :: 'l' :: 'a' :: 's' :: 's' :: suf ∧
        (c = 'C' ∨ c = 'c') ∧
        (∀ p, lastOr pre prev = some p → wordChar p = false) ∧
        (∀ n, suf.head? = some n → wordChar n = false) := by
  intro l
  induction l with
  | nil =>
    intro prev
    simp only [classScan]
    constructor
    · intro h; cases h
    · rintro ⟨pre, c, suf, h, -⟩
      exact absurd h.symm (by simp)
  | cons a rest ih =>
    intro prev
    rw [show classScan prev (a :: rest)
          = (classHere prev (a :: rest) || classScan (some a) rest) from rfl]
    rw [Bool.or_eq_true, classHere_iff, ih (some a)]
    constructor
    · rintro (⟨c, suf, hl, hc, hprev, hnext⟩ | ⟨pre, c, suf, hl, hc, hb, hnext⟩)
      · exact ⟨[], c, suf, by simpa using hl, hc,
          by simpa [lastOr] using hprev, hnext⟩
      · exact ⟨a :: pre, c, suf, by simp [hl], hc,
          by simpa [lastOr_cons] using hb, hnext⟩
    · rintro ⟨pre, c, suf, hl, hc, hb, hnext⟩
      cases pre with
      | nil =>
        exact Or.inl ⟨c, suf, by simpa using hl, hc,
          by simpa [lastOr] using hb, hnext⟩
      | cons x pre' =>
        obtain ⟨hx, hrest⟩ := List.cons_eq_cons.mp hl
        subst hx
        exact Or.inr ⟨pre', c, suf, hrest, hc,
          by simpa [lastOr_cons] using hb, hnext⟩

/-- `lastOr` with no context is the last element. -/
theorem lastOr_none (pre : List Char) : lastOr pre none = pre.getLast? := by
  unfold lastOr
  cases pre.getLast? <;> rfl

/-- The reserved-word test finds exactly the boundary-delimited
`class`/`Class` tokens. -/
theorem hasClassTok_iff (s : String) : hasClassTok s = true ↔ ClassTokSpec s := by
  unfold hasClassTok ClassTokSpec
  rw [classScan_iff s.toList none]
  constructor
  · rintro ⟨pre, c, suf, hl, hc, hb, hnext⟩
    exact ⟨pre, c, suf, hl, hc, fun p hp => hb p (by rwa [lastOr_none]), hnext⟩
  · rintro ⟨pre, c, suf, hl, hc, hb, hnext⟩
    exact ⟨pre, c, suf, hl, hc, fun p hp => hb p (by rwa [lastOr_none] at hp), hnext⟩

/-- A list with a cons pattern as prefix forces the head. -/
theorem consPref_head {a : Char} {t l : List Char}
    (h : (a :: t).isPrefixOf l = true) : l.head? = some a := by
  cases l with
  | nil => cases h
  | cons b bs =>
    have h' : a = b ∧ t.isPrefixOf bs = true := by
      simpa using (h : (a == b && t.isPrefixOf bs) = true)
    simp [h'.1]

/-- A path inside the user Java source areas starts with `'s'` or `'a'`. -/
theorem underJavaSrc_head {q : String} (h : underJavaSrc q = true) :
    q.toList.head? = some 's' ∨ q.toList.head? = some 'a' := by
  unfold underJavaSrc at h
  rcases Bool.or_eq_true_iff.mp h with h1 | h2
  · left
    have hs : "src/".toList = 's' :: "rc/".toList := by decide
    rw [hs] at h1
    exact consPref_head h1
  · right
    have hs : "app/src/main/java/".toList = 'a' :: "pp/src/main/java/".toList := by decide
    rw [hs] at h2
    exact consPref_head h2

/-- A subtree rooted at a `headNotJava` path contains no user-Java path. -/
theorem headNotJava_no_overlap {p q : String} (hp : headNotJava p = true)
    (hq : underJavaSrc q = true) :
    (p ++ "/").toList.isPrefixOf q.toList = false := by
  by_contra hcon
  rw [Bool.not_eq_false] at hcon
  unfold headNotJava at hp
  cases hl : (p ++ "/").toList with
  | nil => rw [hl] at hp; cases hp
  | cons c0 tl =>
    rw [hl] at hp hcon
    have hc : ¬(c0 = 's' ∨ c0 = 'a') := by simpa using hp
    have hqc := consPref_head hcon
    rcases underJavaSrc_head hq with h | h <;> rw [hqc] at h <;>
      injection h with h <;> exact hc (by simp [h])

/-- A `write` outside the Java areas changes no Java-area content. -/
theorem opJavaSafe_write {p : String} (c : String)
    (h : underJavaSrc p = false) : OpJavaSafe (.write p c) := by
  intro f q hq
  show (if q = p then some c else f q) = f q
  rw [if_neg]
  intro he
  rw [he, h] at hq
  cases hq

/-- A `sed` outside the Java areas changes no Java-area content. -/
theorem opJavaSafe_sed {p : String} (g : String → String)
    (h : underJavaSrc p = false) : OpJavaSafe (.sedInPlace p g) := by
  intro f q hq
  show (if q = p then (f p).map g else f q) = f q
  rw [if_neg]
  intro he
  rw [he, h] at hq
  cases hq

/-- `mkdir` changes no content. -/
theorem opJavaSafe_mkdir (p : String) : OpJavaSafe (.mkdir p) :=
  fun _ _ _ => rfl

/-- `symlink` changes no project-tree content. -/
theorem opJavaSafe_symlink (p : String) : OpJavaSafe (.symlink p) :=
  fun _ _ _ => rfl

/-- Build-file regeneration touches only build-configuration paths, none of
which is a Java-area path. -/
theorem opJavaSafe_prep (upd : String → Option String) :
    OpJavaSafe (.prepBuildFilesOp upd) := by
  intro f q hq
  show (if q ∈ buildConfigPaths then upd q else f q) = f q
  rw [if_neg]
  intro hmem
  have : q = "build.gradle" ∨ q = "app/build.gradle" ∨ q = "CordovaLib/build.gradle" := by
    simpa [buildConfigPaths] using hmem
  rcases this with rfl | rfl | rfl <;> exact absurd hq (by decide)

/-- A subtree copy rooted outside the Java areas changes no Java-area
content. -/
theorem opJavaSafe_copyTree {p : String} (tree : String → Option String)
    (h : headNotJava p = true) : OpJavaSafe (.copyTree p tree) := by
  intro f q hq
  have hb : ¬ ((p ++ "/").toList.isPrefixOf q.toList = true) := by
    rw [headNotJava_no_overlap h hq]
    exact Bool.false_ne_true
  show (if (p ++ "/").toList.isPrefixOf q.toList then
          match tree (q.drop (p ++ "/").length) with
          | some c => some c
          | none => f q
        else f q) = f q
  rw [if_neg hb]

/-- A removal rooted outside the Java areas changes no Java-area content. -/
theorem opJavaSafe_remove {p : String} (h1 : underJavaSrc p = false)
    (h2 : headNotJava p = true) : OpJavaSafe (.removePath p) := by
  intro f q hq
  have hqp : q ≠ p := by
    intro he
    rw [he, h1] at hq
    cases hq
  have hb : ¬ ((q = p || (p ++ "/").toList.isPrefixOf q.toList) = true) := by
    intro hor
    rcases Bool.or_eq_true_iff.mp hor with h | h
    · exact hqp (by simpa using h)
    · rw [headNotJava_no_overlap h2 hq] at h
      cases h
  show (if q = p || (p ++ "/").toList.isPrefixOf q.toList then none else f q) = f q
  rw [if_neg hb]

/-- The syntactic safety check implies semantic Java-area safety. -/
theorem opSafeCheck_sound (op : FsOp) (h : opSafeCheck op = true) :
    OpJavaSafe op := by
  cases op with
  | write p c =>
    exact opJavaSafe_write c (by simpa [opSafeCheck] using h)
  | copyTree p tree =>
    exact opJavaSafe_copyTree tree (by simpa [opSafeCheck] using h)
  | removePath p =>
    have h' : underJavaSrc p = false ∧ headNotJava p = true := by
      simpa [opSafeCheck] using h
    exact opJavaSafe_remove h'.1 h'.2
  | mkdir p => exact opJavaSafe_mkdir p
  | symlink p => exact opJavaSafe_symlink p
  | sedInPlace p g =>
    exact opJavaSafe_sed g (by simpa [opSafeCheck] using h)
  | prepBuildFilesOp upd => exact opJavaSafe_prep upd

/-- Applying a trace of Java-safe operations leaves every Java-area path's
content unchanged. -/
theorem applyOps_java_safe (ops : List FsOp)
    (h : ∀ op ∈ ops, OpJavaSafe op) :
    ∀ (f : String → Option String) (q : String), underJavaSrc q = true →
      applyOps f ops q = f q := by
  induction ops with
  | nil => intro f q hq; rfl
  | cons op rest ih =>
    intro f q hq
    have h1 : OpJavaSafe op := h op (by simp)
    have h2 : ∀ o ∈ rest, OpJavaSafe o := fun o ho => h o (by simp [ho])
    show applyOps (op.apply f) rest q = f q
    rw [ih h2 (op.apply f) q hq, h1 f q hq]

/-- String concatenation concatenates character lists. -/
theorem strToList_append (s t : String) :
    (s ++ t).toList = s.toList ++ t.toList := by
  simp [String.toList, String.data_append]

/-- A list is a prefix of itself followed by anything. -/
theorem isPrefixOf_append_self (l₁ l₂ : List Char) :
    l₁.isPrefixOf (l₁ ++ l₂) = true :=
  List.isPrefixOf_iff_prefix.mpr ⟨l₂, rfl⟩

/-- `takeWhile` passes an all-true block. -/
theorem takeWhile_append_all {p : Char → Bool} {w r : List Char}
    (h : ∀ x ∈ w, p x = true) : (w ++ r).takeWhile p = w ++ r.takeWhile p := by
  induction w with
  | nil => rfl
  | cons a w ih =>
    have ha : p a = true := h a (by simp)
    simp only [List.cons_append, List.takeWhile_cons, ha, if_true]
    rw [ih (fun x hx => h x (by simp [hx]))]

/-- `dropWhile` consumes an all-true block. -/
theorem dropWhile_append_all {p : Char → Bool} {w r : List Char}
    (h : ∀ x ∈ w, p x = true) : (w ++ r).dropWhile p = r.dropWhile p := by
  induction w with
  | nil => rfl
  | cons a w ih =>
    have ha : p a = true := h a (by simp)
    simp only [List.cons_append, List.dropWhile_cons, ha, if_true]
    exact ih (fun x hx => h x (by simp [hx]))

/-- Every `digitOf` character is a decimal digit. -/
theorem digitOf_isDigit (d : Nat) : (digitOf d).isDigit = true := by
  unfold digitOf
  match d with
  | 0 | 1 | 2 | 3 | 4 | 5 | 6 | 7 | 8 | 9 => decide
  | n + 10 =>
    rw [List.getD_eq_default]
    · decide
    · simp

/-- `natDigits` prepends digit characters to its accumulator. -/
theorem natDigits_decomp :
    ∀ (fuel n : Nat) (acc : List Char), ∃ pre, natDigits fuel n acc = pre ++ acc ∧
      ∀ c ∈ pre, c.isDigit = true := by
  intro fuel
  induction fuel with
  | zero => exact fun n acc => ⟨[], rfl, by simp⟩
  | succ fuel ih =>
    intro n acc
    rw [natDigits]
    by_cases hn : n = 0
    · rw [if_pos hn]
      exact ⟨[], rfl, by simp⟩
    · rw [if_neg hn]
      obtain ⟨pre, hpre, hdig⟩ := ih (n / 10) (digitOf (n % 10) :: acc)
      refine ⟨pre ++ [digitOf (n % 10)], by simp [hpre], ?_⟩
      intro c hc
      rcases List.mem_append.mp hc with h | h
      · exact hdig c h
      · rw [List.mem_singleton.mp h]
        exact digitOf_isDigit _

/-- The decimal rendering of a natural number is a nonempty string of
digits. -/
theorem natToStr_digits (n : Nat) :
    (natToStr n).toList ≠ [] ∧ ∀ c ∈ (natToStr n).toList, c.isDigit = true := by
  unfold natToStr
  by_cases hn : n = 0
  · rw [if_pos hn]
    exact ⟨by decide, by decide⟩
  · rw [if_neg hn]
    have hred : natDigits n n [] = natDigits (n - 1) (n / 10) (digitOf (n % 10) :: []) := by
      cases n with
      | zero => exact absurd rfl hn
      | succ m =>
        rw [natDigits, if_neg hn]
        rfl
    obtain ⟨pre, hpre, hdig⟩ := natDigits_decomp (n - 1) (n / 10) (digitOf (n % 10) :: [])
    have htl : (String.mk (natDigits n n [])).toList = natDigits n n [] := rfl
    rw [htl, hred, hpre]
    constructor
    · simp
    · intro c hc
      rcases List.mem_append.mp hc with h | h
      · exact hdig c h
      · rw [List.mem_singleton.mp h]
        exact digitOf_isDigit _

/-- `dropLit` consumes exactly the literal. -/
theorem dropLit_append (lit : String) (r : List Char) :
    dropLit lit (lit.toList ++ r) = some r := by
  unfold dropLit
  rw [isPrefixOf_append_self]
  simp only [if_true]
  rw [List.drop_left]

/-- A nonempty list is not `isEmpty`. -/
theorem isEmpty_false_of_ne {l : List Char} (h : l ≠ []) : l.isEmpty = false := by
  cases l with
  | nil => exact absurd rfl h
  | cons a t => rfl

/-- The reference line written by `writeProjectProperties` parses back to
its path. -/
theorem parseRefLine_renderRef (n : Nat) (p : String) :
    parseRefLine (renderRef n p) = some p := by
  unfold renderRef parseRefLine
  have hone : ("=" ++ p).toList = '=' :: p.toList := by
    rw [strToList_append]
    rfl
  have hdec : ("android.library.reference." ++ natToStr n ++ "=" ++ p).toList
      = "android.library.reference.".toList
          ++ ((natToStr n).toList ++ ('=' :: p.toList)) := by
    rw [show ("android.library.reference." ++ natToStr n ++ "=" ++ p)
          = ("android.library.reference." ++ (natToStr n ++ ("=" ++ p))) by
        simp [String.append_assoc]]
    rw [strToList_append, strToList_append, hone]
  rw [hdec]
  have hlit : "android.library.reference.".toList
      = 'a' :: "ndroid.library.reference.".toList := by decide
  have hdrop : ("android.library.reference.".toList
        ++ ((natToStr n).toList ++ ('=' :: p.toList))).dropWhile isJsSpace
      = "android.library.reference.".toList
        ++ ((natToStr n).toList ++ ('=' :: p.toList)) := by
    rw [hlit]
    simp only [List.cons_append, List.dropWhile_cons]
    rw [show isJsSpace 'a' = false from by decide]
    simp
  rw [hdrop]
  unfold parseRefAux
  rw [dropLit_append]
  obtain ⟨hne, hdig⟩ := natToStr_digits n
  show (if (((natToStr n).toList ++ '=' :: p.toList).takeWhile Char.isDigit).isEmpty = true
        then none
        else match ((natToStr n).toList ++ '=' :: p.toList).dropWhile Char.isDigit with
          | '=' :: rest => some (String.mk rest)
          | _ => none) = some p
  rw [takeWhile_append_all hdig, dropWhile_append_all hdig]
  rw [show ('=' :: p.toList).takeWhile Char.isDigit = [] from by
    simp [List.takeWhile_cons]]
  rw [show ('=' :: p.toList).dropWhile Char.isDigit = '=' :: p.toList from by
    simp [List.dropWhile_cons]]
  rw [List.append_nil]
  rw [if_neg (by rw [isEmpty_false_of_ne hne]; exact Bool.false_ne_true)]
  rfl

/-- A non-reference line yields no parse. -/
theorem isRefLine_false_iff {l : String} :
    isRefLine l = false ↔ parseRefLine l = none := by
  unfold isRefLine
  cases parseRefLine l <;> simp

/-- The deletion pass leaves no reference line. -/
theorem stripRefLines_not_ref :
    ∀ xs : List String, ∀ l ∈ stripRefLines xs, isRefLine l = false := by
  intro xs
  induction xs with
  | nil => intro l hl; cases hl
  | cons x rest ih =>
    intro l hl
    rw [stripRefLines] at hl
    by_cases h1 : isRefLine x = true
    · rw [if_pos h1] at hl
      exact ih l hl
    · rw [if_neg h1] at hl
      by_cases h2 : (isWsOnly x && refFollows rest) = true
      · rw [if_pos h2] at hl
        exact ih l hl
      · rw [if_neg h2] at hl
        rcases List.mem_cons.mp hl with rfl | hmem
        · exact Bool.not_eq_true _ ▸ Bool.of_not_eq_true h1
        · exact ih l hmem

/-- Filtering a list of non-reference lines gives nothing. -/
theorem filter_ref_nil {l : List String}
    (h : ∀ x ∈ l, isRefLine x = false) : l.filter isRefLine = [] := by
  induction l with
  | nil => rfl
  | cons a t ih =>
    rw [List.filter_cons, if_neg (by rw [h a (by simp)]; exact Bool.false_ne_true)]
    exact ih (fun x hx => h x (by simp [hx]))

/-- Parsing a list of non-reference lines gives nothing. -/
theorem filterMap_ref_nil {l : List String}
    (h : ∀ x ∈ l, isRefLine x = false) : l.filterMap parseRefLine = [] := by
  induction l with
  | nil => rfl
  | cons a t ih =>
    rw [List.filterMap_cons, isRefLine_false_iff.mp (h a (by simp))]
    exact ih (fun x hx => h x (by simp [hx]))

/-- Every rendered reference line is a reference line. -/
theorem renderRefs_all_ref (ps : List String) :
    ∀ n, ∀ l ∈ renderRefsFrom n ps, isRefLine l = true := by
  induction ps with
  | nil => intro n l hl; cases hl
  | cons p ps ih =>
    intro n l hl
    rw [renderRefsFrom] at hl
    rcases List.mem_cons.mp hl with rfl | hmem
    · unfold isRefLine
      rw [parseRefLine_renderRef]
      rfl
    · exact ih (n + 1) l hmem

/-- The rendered block filters to itself. -/
theorem renderRefs_filter (ps : List String) (n : Nat) :
    (renderRefsFrom n ps).filter isRefLine = renderRefsFrom n ps :=
  List.filter_eq_self.mpr (renderRefs_all_ref ps n)

/-- The rendered block parses back to its paths. -/
theorem renderRefs_filterMap (ps : List String) :
    ∀ n, (renderRefsFrom n ps).filterMap parseRefLine = ps := by
  induction ps with
  | nil => intro n; rfl
  | cons p ps ih =>
    intro n
    rw [renderRefsFrom, List.filterMap_cons, parseRefLine_renderRef, ih (n + 1)]

/-- Keys produced by the dedup accumulator avoid the seen set. -/
theorem dedupFirstAux_not_seen :
    ∀ (l seen : List String), ∀ x ∈ dedupFirstAux seen l, x ∉ seen := by
  intro l
  induction l with
  | nil => intro seen x hx; cases hx
  | cons s rest ih =>
    intro seen x hx
    rw [dedupFirstAux] at hx
    by_cases hs : s ∈ seen
    · rw [if_pos hs] at hx
      exact ih seen x hx
    · rw [if_neg hs] at hx
      rcases List.mem_cons.mp hx with rfl | hmem
      · exact hs
      · intro hxseen
        exact ih (s :: seen) x hmem (by simp [hxseen])

/-- The dedup accumulator produces no duplicate keys. -/
theorem dedupFirstAux_nodup :
    ∀ (l seen : List String), (dedupFirstAux seen l).Nodup := by
  intro l
  induction l with
  | nil => intro seen; exact List.nodup_nil
  | cons s rest ih =>
    intro seen
    rw [dedupFirstAux]
    by_cases hs : s ∈ seen
    · rw [if_pos hs]
      exact ih seen
    · rw [if_neg hs]
      refine List.nodup_cons.mpr ⟨?_, ih (s :: seen)⟩
      intro hmem
      exact dedupFirstAux_not_seen rest (s :: seen) s hmem (by simp)

/-- Object-key dedup produces no duplicate keys. -/
theorem dedupFirst_nodup (l : List String) : (dedupFirst l).Nodup :=
  dedupFirstAux_nodup l []

/-- Sorted insertion permutes the cons. -/
theorem insertByNat_perm (x : String) :
    ∀ l : List String, List.Perm (insertByNat x l) (x :: l) := by
  intro l
  induction l with
  | nil => exact List.Perm.refl _
  | cons y ys ih =>
    rw [insertByNat]
    by_cases h : digitsToNat x ≤ digitsToNat y
    · rw [if_pos h]
    · rw [if_neg h]
      exact (ih.cons y).trans (List.Perm.swap x y ys)

/-- Insertion sort permutes its input. -/
theorem sortByNat_perm : ∀ l : List String, List.Perm (sortByNat l) l := by
  intro l
  induction l with
  | nil => exact List.Perm.refl _
  | cons x xs ih =>
    rw [sortByNat]
    exact (insertByNat_perm x (sortByNat xs)).trans (ih.cons x)

/-- `Object.keys` enumeration of distinct keys is duplicate-free. -/
theorem objectKeys_nodup {l : List String} (h : l.Nodup) :
    (objectKeys l).Nodup := by
  unfold objectKeys
  refine List.Nodup.append ?_ (h.filter _) ?_
  · exact (sortByNat_perm (l.filter isArrayIndex)).symm.nodup (h.filter _)
  · intro x hx1 hx2
    have h1 : isArrayIndex x = true :=
      (List.mem_filter.mp ((sortByNat_perm _).mem_iff.mp hx1)).2
    have h2 : (!isArrayIndex x) = true := (List.mem_filter.mp hx2).2
    rw [h1] at h2
    cases h2

/-- The rewritten `target=` line is not a reference line. -/
theorem target_not_ref (t : String) : parseRefLine ("target=" ++ t) = none := by
  unfold parseRefLine
  have hdec : ("target=" ++ t).toList = 't' :: ("arget=".toList ++ t.toList) := by
    rw [strToList_append]
    rw [show "target=".toList = 't' :: "arget=".toList from by decide]
    rfl
  rw [hdec]
  rw [List.dropWhile_cons]
  rw [show isJsSpace 't' = false from by decide]
  simp only [Bool.false_eq_true, if_false]
  unfold parseRefAux
  rw [show dropLit "android.library.reference." ('t' :: ("arget=".toList ++ t.toList))
        = none from by
    unfold dropLit
    rw [if_neg]
    intro hp
    have hh := consPref_head
      (by rw [← show "android.library.reference.".toList
            = 'a' :: "ndroid.library.reference.".toList from by decide]; exact hp)
    cases hh]

/-- `replaceTarget` preserves the absence of a reference line at the
unterminated tail. -/
theorem replaceTarget_tail_not_ref {t : String} {f : PropsFile}
    (h : ∀ s, f.tail = some s → parseRefLine s = none) :
    ∀ s, (replaceTarget t f).tail = some s → parseRefLine s = none := by
  have key : (replaceTarget t f).tail = f.tail ∨
      (replaceTarget t f).tail = some ("target=" ++ t) := by
    unfold replaceTarget
    cases replaceFirstTarget t f.full with
    | some full' => left; rfl
    | none =>
      cases htl : f.tail with
      | none =>
        left
        exact htl
      | some tl =>
        by_cases hit : isTargetLine tl = true
        · right
          show (if isTargetLine tl = true
                then ({ full := f.full, tail := some ("target=" ++ t) } : PropsFile)
                else f).tail = some ("target=" ++ t)
          rw [if_pos hit]
        · left
          show (if isTargetLine tl = true
                then ({ full := f.full, tail := some ("target=" ++ t) } : PropsFile)
                else f).tail = some tl
          rw [if_neg hit]
          exact htl
  intro s hs
  rcases key with hk | hk
  · exact h s (hk ▸ hs)
  · rw [hk] at hs
    injection hs with hs
    rw [← hs]
    exact target_not_ref t

/-- `writeProjectProperties`, let-expanded. -/
theorem wpp_eq (existing : Option PropsFile) (tmpl : PropsFile) (target : String) :
    writeProjectProperties existing tmpl target
      = { full := (ensureNL { full := stripRefLines (replaceTarget target (existing.getD tmpl)).full
                              tail := (replaceTarget target (existing.getD tmpl)).tail }).full
            ++ renderRefsFrom 1 ("CordovaLib" ::
                (extractSubProjectPaths (replaceTarget target (existing.getD tmpl))).filter
                  (fun p => !staleFrameworkRef p))
          tail := none } := rfl

/-- The lines of a fully terminated file are its terminated lines. -/
theorem lines_mk (full : List String) :
    PropsFile.lines { full := full, tail := none } = full := by
  unfold PropsFile.lines
  simp

/-- After deletion and termination, no line of the leading block is a
reference line. -/
theorem ensureNL_full_not_ref {X : List String} {tl : Option String}
    (hX : ∀ l ∈ X, isRefLine l = false)
    (htl : ∀ s, tl = some s → parseRefLine s = none) :
    ∀ l ∈ (ensureNL { full := X, tail := tl }).full, isRefLine l = false := by
  intro l hl
  unfold ensureNL at hl
  cases tl with
  | some t0 =>
    have hl' : l ∈ X ++ [t0] := hl
    rcases List.mem_append.mp hl' with h | h
    · exact hX l h
    · rw [List.mem_singleton.mp h]
      exact isRefLine_false_iff.mpr (htl t0 rfl)
  | none =>
    have hl' : l ∈ ((if X.isEmpty = true
        then ({ full := [""], tail := none } : PropsFile)
        else { full := X, tail := none })).full := hl
    by_cases hE : X.isEmpty = true
    · rw [if_pos hE] at hl'
      have h0 : l = "" := by simpa using hl'
      rw [h0]
      decide
    · rw [if_neg hE] at hl'
      exact hX l hl'

/-- Claim C7 (amended): provided the source properties file uses plain LF
line endings (no carriage returns or Unicode line separators inside lines,
`propsWf`) and every library-reference line is newline-terminated (the
final unterminated line, if any, is not a reference line), the file written
by `writeProjectProperties` has as its library references exactly the lines
`android.library.reference.N=<path>` numbered consecutively from 1, with the
shared-library reference `CordovaLib` first, stale shared-framework
references pruned, and duplicates collapsed. -/
theorem writeProjectProperties_spec (existing : Option PropsFile)
    (tmpl : PropsFile) (target : String)
    (_hwf : propsWf (existing.getD tmpl) = true)
    (htail : ∀ s, (existing.getD tmpl).tail = some s → parseRefLine s = none) :
    RefsWellFormed (writeProjectProperties existing tmpl target) := by
  have hd1tail : ∀ s, (replaceTarget target (existing.getD tmpl)).tail = some s →
      parseRefLine s = none :=
    replaceTarget_tail_not_ref htail
  have hpre : ∀ l ∈ (ensureNL
      { full := stripRefLines (replaceTarget target (existing.getD tmpl)).full
        tail := (replaceTarget target (existing.getD tmpl)).tail }).full,
      isRefLine l = false :=
    ensureNL_full_not_ref
      (fun l hl => stripRefLines_not_ref (replaceTarget target (existing.getD tmpl)).full l hl)
      hd1tail
  have hlines : (writeProjectProperties existing tmpl target).lines
      = (ensureNL { full := stripRefLines (replaceTarget target (existing.getD tmpl)).full
                    tail := (replaceTarget target (existing.getD tmpl)).tail }).full
        ++ renderRefsFrom 1 ("CordovaLib" ::
            (extractSubProjectPaths (replaceTarget target (existing.getD tmpl))).filter
              (fun p => !staleFrameworkRef p)) := by
    rw [wpp_eq, lines_mk]
  have hrefLines : refLines (writeProjectProperties existing tmpl target)
      = renderRefsFrom 1 ("CordovaLib" ::
          (extractSubProjectPaths (replaceTarget target (existing.getD tmpl))).filter
            (fun p => !staleFrameworkRef p)) := by
    unfold refLines
    rw [hlines, List.filter_append, filter_ref_nil hpre, renderRefs_filter,
      List.nil_append]
  have hrefPaths : refPaths (writeProjectProperties existing tmpl target)
      = "CordovaLib" ::
          (extractSubProjectPaths (replaceTarget target (existing.getD tmpl))).filter
            (fun p => !staleFrameworkRef p) := by
    unfold refPaths
    rw [hlines, List.filterMap_append, filterMap_ref_nil hpre, renderRefs_filterMap,
      List.nil_append]
  unfold RefsWellFormed
  refine ⟨?_, ?_, ?_, ?_⟩
  · rw [hrefLines, hrefPaths]
  · rw [hrefPaths]
    rfl
  · rw [hrefPaths]
    refine List.nodup_cons.mpr ⟨?_, ?_⟩
    · intro hmem
      have hst := (List.mem_filter.mp hmem).2
      rw [show staleFrameworkRef "CordovaLib" = true from by decide] at hst
      cases hst
    · exact (objectKeys_nodup (dedupFirst_nodup _)).filter _
  · rw [hrefPaths]
    intro p hp
    have hst := (List.mem_filter.mp hp).2
    rwa [Bool.not_eq_true'] at hst

/-! ## Claim theorems -/

/-- Claim C9: `validateProjectName` rejects exactly the empty name, the name
`CordovaActivity` and names starting with a digit, and resolves every other
project name. -/
theorem validateProjectName_spec (s : String) :
    validateProjectName s = .ok () ↔
      ¬(s = "" ∨ s = "CordovaActivity" ∨ startsWithDigit s = true) := by
  unfold validateProjectName
  split_ifs with h1 h2 h3 <;> simp_all

/-- Claim C3: `update` leaves the manifest with `debuggable = false` and
`minSdkVersion ≥ 16`, raising the declared minimum to 16 exactly when it was
below 16, and a second `update` with identical options changes the manifest
no further. -/
theorem update_manifest_invariants_and_idempotent (t : Tmpl)
    (link wasSymlink : Bool) (props : Option PropsFile) (target : String)
    (st : ProjectState) :
    ((updateProject t link wasSymlink props target st).1.manifest.debuggable = false) ∧
    (16 ≤ (updateProject t link wasSymlink props target st).1.manifest.minSdkVersion) ∧
    ((updateProject t link wasSymlink props target st).1.manifest.minSdkVersion
      = if st.manifest.minSdkVersion < 16 then 16 else st.manifest.minSdkVersion) ∧
    ((updateProject t link wasSymlink props target
        (updateProject t link wasSymlink props target st).1).1.manifest
      = (updateProject t link wasSymlink props target st).1.manifest) := by
  have hm : ∀ s : ProjectState,
      (updateProject t link wasSymlink props target s).1.manifest
        = updateManifest s.manifest := fun _ => rfl
  rw [hm, hm, hm]
  unfold updateManifest MIN_SDK_VERSION
  split_ifs <;> simp_all

/-- Claim C2: one `addPlugin` or `removePlugin` call triggers build-file
regeneration exactly once when the plugin declares at least one framework
dependency, and never when it declares none. -/
theorem plugin_prepBuildFiles_count (st : ApiState) (p : Plugin)
    (io : Option InstallOptions) (uo : Option UninstallOptions) :
    ((addPlugin st p io).2.countP (fun e => e == ApiEvent.prepBuildFiles)
        = if p.frameworks.length = 0 then 0 else 1) ∧
    ((removePlugin st p uo).2.countP (fun e => e == ApiEvent.prepBuildFiles)
        = if p.frameworks.length = 0 then 0 else 1) := by
  constructor
  · by_cases hf : p.frameworks.length = 0 <;>
      cases hs : st.android_studio <;> cases hc : st.project.isClean <;>
        simp [addPlugin, hf, hs, hc, List.countP_append, List.countP_cons]
  · by_cases hf : p.frameworks.length = 0 <;>
      simp [removePlugin, hf, List.countP_cons]

/-- Claim C5 counterexample: a caller-supplied empty-string `PACKAGE_NAME`
is not kept — `addPlugin` overwrites it with the manifest package name. -/
theorem addPlugin_empty_package_name_overwritten :
    lookupVar [("PACKAGE_NAME", "")] "PACKAGE_NAME" = some "" ∧
    lookupVar ((addPlugin
        { android_studio := false
          project := { packageName := "com.example.app", isClean := true } }
        { frameworks := [] }
        (some { vars := some [("PACKAGE_NAME", "")] })).1.vars) "PACKAGE_NAME"
      = some "com.example.app" ∧
    ("" : String) ≠ "com.example.app" := by
  refine ⟨rfl, by decide, by decide⟩

/-- Claim C5 (amended): before delegating, `addPlugin` ensures the variable
map delivered to the plugin manager has a `PACKAGE_NAME` entry — the
caller's value when it was supplied non-empty, and the package name from the
project manifest when it was absent or empty. -/
theorem addPlugin_package_name_injection (st : ApiState) (p : Plugin)
    (io : Option InstallOptions) :
    (lookupVar (addPlugin st p io).1.vars "PACKAGE_NAME"
      = some (match lookupVar ((io.getD {}).vars.getD []) "PACKAGE_NAME" with
              | some v => if v = "" then st.project.packageName else v
              | none => st.project.packageName)) ∧
    ApiEvent.pmAddPlugin (addPlugin st p io).1 ∈ (addPlugin st p io).2 := by
  constructor
  · cases h : lookupVar ((io.getD {}).vars.getD []) "PACKAGE_NAME" with
    | none => simp [addPlugin, jsFalsyStr, h, lookupVar_setVar]
    | some v =>
      by_cases hv : v = "" <;>
        simp [addPlugin, jsFalsyStr, h, hv, lookupVar_setVar]
  · simp [addPlugin]

/-- Claim C6: `addPlugin` performs an implicit clean — scoped by
`noPrepare` — before delegating to the plugin manager exactly when the
project is not Android-Studio-layout and its build state is not clean;
otherwise delegation happens with no preceding clean. -/
theorem addPlugin_implicit_clean (st : ApiState) (p : Plugin)
    (io : Option InstallOptions) :
    ∃ tl, (addPlugin st p io).2
      = (if st.android_studio = false ∧ st.project.isClean = false
         then [ApiEvent.cleanProject true] else [])
        ++ ApiEvent.pmAddPlugin (addPlugin st p io).1 :: tl := by
  refine ⟨if p.frameworks.length = 0 then [] else [ApiEvent.prepBuildFiles], ?_⟩
  cases hs : st.android_studio <;> cases hc : st.project.isClean <;>
    simp [addPlugin, hs, hc]

/-- Claim C10: `removePlugin` rewrites the caller's options — turning
`usePlatformWww` off and marking `android_studio` — exactly when the caller
passed `usePlatformWww === true` on an Android-Studio project, and hands
the options to the plugin manager unmodified in every other case. -/
theorem removePlugin_options_rewrite (st : ApiState) (p : Plugin)
    (uo : Option UninstallOptions) :
    ((removePlugin st p uo).1
      = match uo with
        | some u =>
          if u.usePlatformWww = some true ∧ st.android_studio = true
          then some { u with usePlatformWww := some false, android_studio := some true }
          else some u
        | none => none) ∧
    ApiEvent.pmRemovePlugin (removePlugin st p uo).1 ∈ (removePlugin st p uo).2 := by
  constructor
  · cases uo with
    | none => rfl
    | some u =>
      by_cases h : u.usePlatformWww = some true ∧ st.android_studio = true
      · simp [removePlugin, h]
      · simp [removePlugin, h]
  · simp [removePlugin]

/-- Claim C1 (code bug evaluation): `validateProjectName` rejects the
reserved name `CordovaActivity`, yet `create` with that project name — the
destination fresh and the package name valid — resolves and performs
filesystem mutations, because `create` drops the promise returned by
`validateProjectName` (`bin/lib/create.js:242`). -/
theorem create_ignores_project_name_validation :
    validateProjectName "CordovaActivity"
        = .error "Error validating project name. Project name cannot be CordovaActivity" ∧
    (create false { packageName := "com.example.app", name := "CordovaActivity" } {}
        {} "android-25" "HelloWorld" false).1 = .ok "HelloWorld" ∧
    0 < (create false { packageName := "com.example.app", name := "CordovaActivity" } {}
        {} "android-25" "HelloWorld" false).2.length := by
  exact ⟨rfl, rfl, by decide⟩

/-- Claim C4 counterexample: `ab.CLASS` matches the package grammar and
contains `CLASS` — the word `class` as a case-insensitive, word-boundary-
delimited token — yet `validatePackageName` resolves it, because the source
regex `[Cc]lass` is case-insensitive only in its first letter. -/
theorem validatePackageName_class_case_counterexample :
    packageGrammar "ab.CLASS" = true ∧
    specClassTokenCI "ab.CLASS" = true ∧
    validatePackageName "ab.CLASS" = .ok () :=
  ⟨by decide, by decide, rfl⟩

/-- Claim C4 (amended): `validatePackageName` resolves exactly the
identifiers that match the grammar
`[a-zA-Z][a-zA-Z0-9_]+(\.[a-zA-Z][a-zA-Z0-9_]*)+` and do not contain a
word-boundary-delimited `class` or `Class` token (case-insensitive in the
first letter only); all others are rejected. -/
theorem validatePackageName_spec (s : String) :
    validatePackageName s = .ok () ↔ (GrammarSpec s ∧ ¬ ClassTokSpec s) := by
  unfold validatePackageName
  split_ifs with h1 h2
  · rw [Bool.not_eq_true'] at h1
    simp only [reduceCtorEq, false_iff]
    rintro ⟨hg, -⟩
    rw [← packageGrammar_iff] at hg
    rw [h1] at hg
    cases hg
  · simp only [reduceCtorEq, false_iff]
    rintro ⟨-, hnc⟩
    exact hnc (hasClassTok_iff s |>.mp h2)
  · simp only [true_iff]
    rw [Bool.not_eq_true', Bool.not_eq_false] at h1
    constructor
    · exact packageGrammar_iff s |>.mp h1
    · intro hc
      rw [← hasClassTok_iff] at hc
      simp [hc] at h2

/-- Claim C7 counterexample: an existing `project.properties` whose final
line is an unterminated library reference defeats the claim — the deletion
regex requires a trailing newline, so the stale reference survives above the
renumbered block and the output's reference lines are neither consecutively
numbered nor led by `CordovaLib`. -/
theorem writeProjectProperties_unterminated_counterexample :
    propsWf { full := [], tail := some "android.library.reference.1=sub" } = true ∧
    ¬ RefsWellFormed (writeProjectProperties
        (some { full := [], tail := some "android.library.reference.1=sub" })
        { full := [], tail := none } "android-25") := by
  constructor
  · decide
  · unfold RefsWellFormed
    decide

/-- Claim C7 witness: a concrete update-time run — an existing properties
file with a `target=` line and one terminated reference line — satisfies the
amended property. -/
theorem writeProjectProperties_spec_witness :
    RefsWellFormed (writeProjectProperties
      (some { full := ["target=android-19", "android.library.reference.1=sub"]
              tail := none })
      { full := [], tail := none } "android-25") :=
  writeProjectProperties_spec _ _ _ (by decide) (fun _ h => nomatch h)

/-- Claim C8: `update` never changes the package id recorded in the
manifest, and no operation of its refresh trace modifies the content of any
path inside the user Java source areas (`src/`, `app/src/main/java/`) —
those files are byte-for-byte unchanged. -/
theorem update_preserves_package_id_and_java_sources (t : Tmpl)
    (link ws : Bool) (props : Option PropsFile) (target : String)
    (st : ProjectState) :
    ((updateProject t link ws props target st).1.manifest.packageId
        = st.manifest.packageId) ∧
    ∀ q, underJavaSrc q = true →
      (updateProject t link ws props target st).1.files q = st.files q := by
  constructor
  · show (updateManifest st.manifest).packageId = st.manifest.packageId
    unfold updateManifest
    split_ifs <;> rfl
  · intro q hq
    show applyOps st.files
      (updateOps t (updateManifest st.manifest) link ws props target) q = st.files q
    have hall : (updateOps t (updateManifest st.manifest) link ws props target).all
        opSafeCheck = true := by
      cases link <;> cases ws <;> rfl
    exact applyOps_java_safe _
      (fun op hop => opSafeCheck_sound op (List.all_eq_true.mp hall op hop))
      st.files q hq

/-- Claim C8 witness: on a concrete project state, `update` keeps the
package id and leaves a concrete user Java source path's content
untouched. -/
theorem update_preserves_package_id_and_java_sources_witness :
    ((updateProject {} false false none "android-25"
        { manifest := { packageId := "com.example.app", minSdkVersion := 14
                        targetSdkVersion := "25", debuggable := true
                        activityName := "MainActivity" }
          files := fun _ => some "original" }).1.manifest.packageId
      = "com.example.app") ∧
    ((updateProject {} false false none "android-25"
        { manifest := { packageId := "com.example.app", minSdkVersion := 14
                        targetSdkVersion := "25", debuggable := true
                        activityName := "MainActivity" }
          files := fun _ => some "original" }).1.files
        "app/src/main/java/com/example/app/MainActivity.java"
      = some "original") :=
  have h := update_preserves_package_id_and_java_sources {} false false none
    "android-25"
    { manifest := { packageId := "com.example.app", minSdkVersion := 14
                    targetSdkVersion := "25", debuggable := true
                    activityName := "MainActivity" }
      files := fun _ => some "original" }
  ⟨h.1, h.2 "app/src/main/java/com/example/app/MainActivity.java" (by decide)⟩

end Cordova
